import Mathlib

/-!
Verification of the wagon JIT compilation core: the candidate scanner
(`exec/internal/compile/scanner.go`) and the amd64 native-call trampoline
(`jitcall`, `exec/internal/compile/native_exec_amd64.s`).

Modelling conventions:
* Go `byte` opcodes, byte offsets and sizes are modelled as `Nat`
  (byte offsets of decoded instructions are non-negative and far below
  2^63, so Go's `int`/`uint` arithmetic here never wraps).
* The Go map `map[int64]bool` of inbound branch targets is modelled as a
  `List Nat` of offsets, with membership via `List.contains`.
* `ScanFunc` returns `([]CompilationCandidate, error)`; the error channel
  is modelled as `Option String` (the code always returns `nil`).
-/

namespace Wagon

/- Opcode byte values from `wasm/operators` (the WebAssembly opcodes
referenced by the scanner's classification table). -/
namespace ops

def GetLocal : Nat := 0x20
def SetLocal : Nat := 0x21
def I64Const : Nat := 0x42
def I64Eqz : Nat := 0x50
def I64Eq : Nat := 0x51
def I64Ne : Nat := 0x52
def I64LtU : Nat := 0x54
def I64GtU : Nat := 0x56
def I64LeU : Nat := 0x58
def I64GeU : Nat := 0x5a
def I64Add : Nat := 0x7c
def I64Sub : Nat := 0x7d
def I64Mul : Nat := 0x7e
def I64DivS : Nat := 0x7f
def I64DivU : Nat := 0x80
def I64RemS : Nat := 0x81
def I64RemU : Nat := 0x82
def I64And : Nat := 0x83
def I64Or : Nat := 0x84
def I64Xor : Nat := 0x85
def I64Shl : Nat := 0x86
def I64ShrS : Nat := 0x87
def I64ShrU : Nat := 0x88
def Call : Nat := 0x10

end ops

/-- Structure `InstructionMetadata` describes a bytecode instruction
(opcode, start byte offset, size in bytes). -/
structure InstructionMetadata where
  Op : Nat
  Start : Nat
  Size : Nat
  deriving DecidableEq, Repr

/-- Structure `Metrics` describes the heuristics of an instruction sequence. -/
structure Metrics where
  MemoryReads : Nat := 0
  MemoryWrites : Nat := 0
  StackReads : Nat := 0
  StackWrites : Nat := 0
  AllOps : Nat := 0
  IntegerOps : Nat := 0
  FloatOps : Nat := 0
  deriving DecidableEq, Repr

/-- The zero `Metrics` record (Go's `Metrics{}`). -/
def Metrics.zero : Metrics := {}

/-- Componentwise sum of two `Metrics` records. -/
def Metrics.add (a b : Metrics) : Metrics where
  MemoryReads := a.MemoryReads + b.MemoryReads
  MemoryWrites := a.MemoryWrites + b.MemoryWrites
  StackReads := a.StackReads + b.StackReads
  StackWrites := a.StackWrites + b.StackWrites
  AllOps := a.AllOps + b.AllOps
  IntegerOps := a.IntegerOps + b.IntegerOps
  FloatOps := a.FloatOps + b.FloatOps

/-- Structure `CompilationCandidate` describes a range of bytecode that can be
translated to native code.  `End` is the Go field `End` (bytecode index one
past the last byte of the last instruction); `EndInstruction` is exclusive. -/
structure CompilationCandidate where
  Start : Nat := 0
  End : Nat := 0
  StartInstruction : Nat := 0
  EndInstruction : Nat := 0
  Metrics : Metrics := {}
  deriving DecidableEq, Repr

/-- Go's zero value `CompilationCandidate{}` (the initial accumulator). -/
def CompilationCandidate.zero : CompilationCandidate := {}

/-- Method `(*CompilationCandidate).reset` from the source: zero everything except
`EndInstruction`, which is set to 1. -/
def CompilationCandidate.reset : CompilationCandidate :=
  { Start := 0, End := 0, StartInstruction := 0, EndInstruction := 1, Metrics := {} }

/-- Method `Bounds` returns the beginning and (exclusive) end bytecode index of the
candidate. -/
def CompilationCandidate.Bounds (s : CompilationCandidate) : Nat × Nat :=
  (s.Start, s.End)

/-- The per-function metadata consumed by the scanner: the decoded
instruction list and the set of inbound branch-target byte offsets. -/
structure BytecodeMetadata where
  Instructions : List InstructionMetadata
  InboundTargets : List Nat
  deriving Repr

/-- The scanner: holds the backend's supported-opcode predicate
(Go `map[byte]bool`, whose lookup defaults to `false`). -/
structure scanner where
  supportedOpcodes : Nat → Bool

/-- The per-opcode `Metrics` contribution of one accepted instruction: the
`switch inst.Op` table of `ScanFunc`, plus the unconditional
`inProgress.Metrics.AllOps++` that follows it. -/
def opContribution (op : Nat) : Metrics :=
  if op = ops.I64Const ∨ op = ops.GetLocal then
    { IntegerOps := 1, StackWrites := 1, AllOps := 1 }
  else if op = ops.SetLocal then
    { IntegerOps := 1, StackReads := 1, AllOps := 1 }
  else if op = ops.I64Eqz then
    { IntegerOps := 1, StackReads := 1, StackWrites := 1, AllOps := 1 }
  else if op = ops.I64Eq ∨ op = ops.I64Ne ∨ op = ops.I64LtU ∨ op = ops.I64GtU ∨
      op = ops.I64LeU ∨ op = ops.I64GeU ∨
      op = ops.I64Shl ∨ op = ops.I64ShrU ∨ op = ops.I64ShrS ∨
      op = ops.I64DivU ∨ op = ops.I64RemU ∨ op = ops.I64DivS ∨ op = ops.I64RemS ∨
      op = ops.I64Add ∨ op = ops.I64Sub ∨ op = ops.I64Mul ∨
      op = ops.I64And ∨ op = ops.I64Or ∨ op = ops.I64Xor then
    { IntegerOps := 1, StackReads := 2, StackWrites := 1, AllOps := 1 }
  else
    { AllOps := 1 }

/-- The disqualification test of `ScanFunc`'s loop body: the opcode is
unsupported, or the instruction's start offset has an inbound branch target
while it is not at offset 0 and a candidate is already being accumulated
(`isInsideBranchTarget`). -/
def disqualified (s : scanner) (targets : List Nat) (inst : InstructionMetadata)
    (inProgress : CompilationCandidate) : Bool :=
  !s.supportedOpcodes inst.Op ||
    (targets.contains inst.Start && decide (inst.Start > 0) &&
      decide (inProgress.Metrics.AllOps > 0))

/-- Emission of the in-progress candidate: appended to `finishedCandidates`
exactly when it holds more than 2 instructions (`AllOps > 2`). -/
def flushCandidate (finished : List CompilationCandidate)
    (inProgress : CompilationCandidate) : List CompilationCandidate :=
  if inProgress.Metrics.AllOps > 2 then finished ++ [inProgress] else finished

/-- Updating the in-progress candidate with the accepted instruction `inst`
at stream index `i`: on an empty accumulator record the start offset/index,
then extend the end offset/index and add the opcode's metrics contribution. -/
def stepCandidate (inst : InstructionMetadata) (i : Nat)
    (inProgress : CompilationCandidate) : CompilationCandidate :=
  let ip0 :=
    if inProgress.Metrics.AllOps = 0 then
      { inProgress with Start := inst.Start, StartInstruction := i }
    else inProgress
  { ip0 with
    EndInstruction := i + 1
    End := inst.Start + inst.Size
    Metrics := ip0.Metrics.add (opContribution inst.Op) }

/-- The body of `ScanFunc`'s `for i, inst := range meta.Instructions` loop,
written as structural recursion over the remaining instructions, carrying the
running index `i`, the `finishedCandidates` accumulator and the `inProgress`
candidate.  The trailing flush after the loop is the `[]` case. -/
def scanLoop (s : scanner) (targets : List Nat) :
    List InstructionMetadata → Nat → List CompilationCandidate →
    CompilationCandidate → List CompilationCandidate
  | [], _, finished, inProgress => flushCandidate finished inProgress
  | inst :: rest, i, finished, inProgress =>
    if disqualified s targets inst inProgress then
      scanLoop s targets rest (i + 1) (flushCandidate finished inProgress)
        CompilationCandidate.reset
    else
      scanLoop s targets rest (i + 1) finished (stepCandidate inst i inProgress)

/-- Method `ScanFunc` scans the given function information, emitting selections of
bytecode which could be compiled into function code.  The `bytecode`
byte-slice argument is received but never read by the body.  The error result
is always `nil` (`none`). -/
def scanner.ScanFunc (s : scanner) (bytecode : List Nat) (meta : BytecodeMetadata) :
    List CompilationCandidate × Option String :=
  (scanLoop s meta.InboundTargets meta.Instructions 0 [] CompilationCandidate.zero, none)

/-! Specification-side helpers used to state properties of `ScanFunc`. -/

/-- The instruction at stream index `j` (defaulting outside the list). -/
def instAt (L : List InstructionMetadata) (j : Nat) : InstructionMetadata :=
  L.getD j ⟨0, 0, 0⟩

/-- Sum of the per-opcode metrics contributions of the `n` instructions at
stream indices `a, a+1, …, a+n-1`. -/
def rangeMetrics (L : List InstructionMetadata) (a : Nat) : Nat → Metrics
  | 0 => Metrics.zero
  | n + 1 => (rangeMetrics L a n).add (opContribution (instAt L (a + n)).Op)

/-- A well-formed finalized candidate for the instruction list `L`: its
instruction range is a nonempty in-bounds window of more than 2 instructions,
its metrics are the per-opcode sums over that window, and its byte bounds
come from the window's first and last instruction. -/
def Good (L : List InstructionMetadata) (c : CompilationCandidate) : Prop :=
  c.StartInstruction < c.EndInstruction ∧
  c.EndInstruction ≤ L.length ∧
  c.Metrics.AllOps = c.EndInstruction - c.StartInstruction ∧
  2 < c.Metrics.AllOps ∧
  c.Metrics = rangeMetrics L c.StartInstruction (c.EndInstruction - c.StartInstruction) ∧
  c.Start = (instAt L c.StartInstruction).Start ∧
  c.End = (instAt L (c.EndInstruction - 1)).Start + (instAt L (c.EndInstruction - 1)).Size

/-- The finished candidates appear in scan order: each candidate's exclusive
end instruction index is at most the next one's start instruction index. -/
def ChainIdx (l : List CompilationCandidate) : Prop :=
  List.Chain' (fun a b => a.EndInstruction ≤ b.StartInstruction) l

/-- The state of an active (nonempty) in-progress candidate after the loop
has processed the first `i` instructions of `L`. -/
def ActiveInv (L : List InstructionMetadata) (i : Nat) (ip : CompilationCandidate) : Prop :=
  ip.StartInstruction < ip.EndInstruction ∧
  ip.EndInstruction = i ∧
  i ≤ L.length ∧
  ip.Metrics.AllOps = ip.EndInstruction - ip.StartInstruction ∧
  ip.Metrics = rangeMetrics L ip.StartInstruction (ip.EndInstruction - ip.StartInstruction) ∧
  ip.Start = (instAt L ip.StartInstruction).Start ∧
  ip.End = (instAt L (ip.EndInstruction - 1)).Start + (instAt L (ip.EndInstruction - 1)).Size

/-- The in-progress accumulator is either empty (all metrics zero, as after
`reset` or at the start) or an active candidate satisfying `ActiveInv`. -/
def IPInv (L : List InstructionMetadata) (i : Nat) (ip : CompilationCandidate) : Prop :=
  ip.Metrics = Metrics.zero ∨ ActiveInv L i ip

/-!
Machine-level model of the amd64 trampoline `jitcall` from
`native_exec_amd64.s`:

    MOVQ asm+0(FP),     AX
    MOVQ stack+8(FP),   R10
    MOVQ locals+16(FP), R11
    MOVQ 0(AX),         AX
    JMP  AX

States carry the three registers the stub touches, the stack pointer, the
program counter, the Go frame pointer FP (the three 8-byte arguments live at
FP+0, FP+8, FP+16) and a flat 64-bit-word memory.  Addresses are reduced
mod 2^64.
-/

namespace jit

/-- The 64-bit word modulus. -/
def wordMod : Nat := 2 ^ 64

/-- The machine registers the trampoline touches. -/
inductive Reg where
  | AX
  | R10
  | R11
  deriving DecidableEq, Repr

/-- Machine state: registers, stack pointer, program counter, frame pointer
and memory (the 64-bit value stored at each address). -/
structure MachineState where
  ax : Nat
  r10 : Nat
  r11 : Nat
  sp : Nat
  pc : Nat
  fp : Nat
  mem : Nat → Nat

def MachineState.getReg (st : MachineState) : Reg → Nat
  | .AX => st.ax
  | .R10 => st.r10
  | .R11 => st.r11

def MachineState.setReg (st : MachineState) (r : Reg) (v : Nat) : MachineState :=
  match r with
  | .AX => { st with ax := v }
  | .R10 => { st with r10 := v }
  | .R11 => { st with r11 := v }

/-- The instruction forms needed to express the stub (plus `callReg`, the
call-with-return-address alternative the stub deliberately does not use). -/
inductive Instr where
  | movFromFrame (off : Nat) (dst : Reg)
  | movDeref (src : Reg) (dst : Reg)
  | jmpReg (r : Reg)
  | callReg (r : Reg)
  deriving DecidableEq, Repr

/-- Small-step semantics.  `movFromFrame off dst` is `MOVQ off(FP), dst`;
`movDeref src dst` is `MOVQ 0(src), dst`; `jmpReg` transfers control without
touching the stack; `callReg` would push a return address (decrementing SP
and writing memory) before transferring control. -/
def step (st : MachineState) : Instr → MachineState
  | .movFromFrame off dst =>
    { st.setReg dst (st.mem ((st.fp + off) % wordMod)) with pc := st.pc + 1 }
  | .movDeref src dst =>
    { st.setReg dst (st.mem (st.getReg src % wordMod)) with pc := st.pc + 1 }
  | .jmpReg r => { st with pc := st.getReg r }
  | .callReg r =>
    let sp' := (st.sp + wordMod - 8) % wordMod
    { st with
      pc := st.getReg r
      sp := sp'
      mem := fun a => if a = sp' then st.pc + 1 else st.mem a }

/-- Run a straight-line instruction sequence. -/
def run (prog : List Instr) (st : MachineState) : MachineState :=
  prog.foldl step st

/-- The `jitcall` stub: load the three frame arguments into AX/R10/R11,
dereference the code pointer, and jump to it. -/
def jitcall : List Instr :=
  [.movFromFrame 0 .AX, .movFromFrame 8 .R10, .movFromFrame 16 .R11,
   .movDeref .AX .AX, .jmpReg .AX]

end jit


/-! Concrete fixtures used by witnesses and counterexamples. -/

/-- A scanner supporting only `I64Const`. -/
def scanConst : scanner := ⟨fun op => op == ops.I64Const⟩

/-- A scanner supporting `I64Const`, `I64Add` and `I64Sub` (not `Call`). -/
def scanBasic : scanner :=
  ⟨fun op => op == ops.I64Const || op == ops.I64Add || op == ops.I64Sub⟩

/-- Five supported 1-byte instructions at offsets 0..4, with an inbound
branch target at offset 2 (the 3rd instruction's start). -/
def metaBranch5 : BytecodeMetadata :=
  ⟨[⟨ops.I64Const, 0, 1⟩, ⟨ops.I64Const, 1, 1⟩, ⟨ops.I64Const, 2, 1⟩,
    ⟨ops.I64Const, 3, 1⟩, ⟨ops.I64Const, 4, 1⟩], [2]⟩

/-- Three supported contiguous 1-byte instructions, no inbound targets. -/
def metaRun3 : BytecodeMetadata :=
  ⟨[⟨ops.I64Const, 0, 1⟩, ⟨ops.I64Const, 1, 1⟩, ⟨ops.I64Const, 2, 1⟩], []⟩

/-- An empty function. -/
def metaEmpty : BytecodeMetadata := ⟨[], []⟩

/-- Three supported instructions whose start offsets decrease (malformed
upstream metadata): offsets 100, 0, 0. -/
def metaNonMono : BytecodeMetadata :=
  ⟨[⟨ops.I64Const, 100, 1⟩, ⟨ops.I64Const, 0, 1⟩, ⟨ops.I64Const, 0, 1⟩], []⟩

/-- Monotone start offsets 0,1,2,2,2,3,4 but overlapping instruction bytes
(sizes 10), with the unsupported `Call` separating two supported runs. -/
def metaOverlap : BytecodeMetadata :=
  ⟨[⟨ops.I64Const, 0, 10⟩, ⟨ops.I64Const, 1, 10⟩, ⟨ops.I64Const, 2, 10⟩,
    ⟨ops.Call, 2, 1⟩, ⟨ops.I64Const, 2, 1⟩, ⟨ops.I64Const, 3, 1⟩,
    ⟨ops.I64Const, 4, 1⟩], []⟩

/-- The spec's mixed scenario `[Const, Const, Add, Call, Const, Const, Sub]`
at contiguous offsets 0..6 with 1-byte instructions, no inbound targets. -/
def metaMix7 : BytecodeMetadata :=
  ⟨[⟨ops.I64Const, 0, 1⟩, ⟨ops.I64Const, 1, 1⟩, ⟨ops.I64Add, 2, 1⟩,
    ⟨ops.Call, 3, 1⟩, ⟨ops.I64Const, 4, 1⟩, ⟨ops.I64Const, 5, 1⟩,
    ⟨ops.I64Sub, 6, 1⟩], []⟩

/-- The first candidate of the mixed scenario: instructions 0..2. -/
def cand7a : CompilationCandidate := ⟨0, 3, 0, 3, ⟨0, 0, 2, 3, 3, 3, 0⟩⟩

/-- The second candidate of the mixed scenario: instructions 4..6. -/
def cand7b : CompilationCandidate := ⟨4, 7, 4, 7, ⟨0, 0, 2, 3, 3, 3, 0⟩⟩

/-- The single whole-function candidate of `metaRun3`. -/
def candRun3 : CompilationCandidate := ⟨0, 3, 0, 3, ⟨0, 0, 0, 3, 3, 3, 0⟩⟩

theorem Metrics.add_AllOps (a b : Metrics) : (a.add b).AllOps = a.AllOps + b.AllOps := rfl

theorem opContribution_AllOps (op : Nat) : (opContribution op).AllOps = 1 := by
  unfold opContribution
  split_ifs <;> rfl

theorem activeInv_of_IPInv {L : List InstructionMetadata} {i : Nat}
    {ip : CompilationCandidate} (h : IPInv L i ip) (hpos : ip.Metrics.AllOps ≠ 0) :
    ActiveInv L i ip := by
  rcases h with h | h
  · exact absurd (by rw [h] ; rfl) hpos
  · exact h

theorem good_of_activeInv {L : List InstructionMetadata} {i : Nat}
    {ip : CompilationCandidate} (h : ActiveInv L i ip) (hall : 2 < ip.Metrics.AllOps) :
    Good L ip := by
  obtain ⟨h1, h2, h3, h4, h5, h6, h7⟩ := h
  exact ⟨h1, h2 ▸ h3, h4, hall, h5, h6, h7⟩

theorem mem_flushCandidate {finished : List CompilationCandidate}
    {ip c : CompilationCandidate} (h : c ∈ flushCandidate finished ip) :
    c ∈ finished ∨ (c = ip ∧ 2 < ip.Metrics.AllOps) := by
  unfold flushCandidate at h
  split at h
  · rcases List.mem_append.mp h with h1 | h1
    · exact Or.inl h1
    · exact Or.inr ⟨List.mem_singleton.mp h1, by assumption⟩
  · exact Or.inl h

theorem chainIdx_flushCandidate {finished : List CompilationCandidate}
    {ip : CompilationCandidate} (hch : ChainIdx finished)
    (hlast : 2 < ip.Metrics.AllOps →
      ∀ c ∈ finished, c.EndInstruction ≤ ip.StartInstruction) :
    ChainIdx (flushCandidate finished ip) := by
  unfold flushCandidate
  split
  · refine List.Chain'.append hch (List.chain'_singleton ip) ?_
    intro x hx y hy
    simp only [List.head?] at hy
    obtain ⟨hne, hxl⟩ := List.mem_getLast?_eq_getLast hx
    cases hy
    exact hxl ▸ hlast (by assumption) _ (List.getLast_mem hne)
  · exact hch

theorem stepCandidate_StartInstruction (inst : InstructionMetadata) (i : Nat)
    (ip : CompilationCandidate) :
    (stepCandidate inst i ip).StartInstruction =
      if ip.Metrics.AllOps = 0 then i else ip.StartInstruction := by
  unfold stepCandidate
  split_ifs <;> rfl

/-- Accepting a supported instruction turns any invariant-satisfying
accumulator into an active one for the next index. -/
theorem stepCandidate_activeInv {L : List InstructionMetadata} {i : Nat}
    {ip : CompilationCandidate} {inst : InstructionMetadata}
    (hlen : i < L.length) (hat : instAt L i = inst) (hinv : IPInv L i ip) :
    ActiveInv L (i + 1) (stepCandidate inst i ip) := by
  by_cases h0 : ip.Metrics.AllOps = 0
  · have hz : ip.Metrics = Metrics.zero := by
      rcases hinv with h | h
      · exact h
      · obtain ⟨h1, -, -, h4, -⟩ := h
        omega
    unfold stepCandidate
    rw [if_pos h0]
    refine ⟨show i < i + 1 by omega, rfl, by omega, ?_, ?_, ?_, ?_⟩
    · show (ip.Metrics.add (opContribution inst.Op)).AllOps = (i + 1) - i
      rw [Metrics.add_AllOps, opContribution_AllOps, h0]
      omega
    · show ip.Metrics.add (opContribution inst.Op) =
        rangeMetrics L i ((i + 1) - i)
      have h1 : (i + 1) - i = 1 := by omega
      rw [h1, hz]
      show Metrics.zero.add (opContribution inst.Op) =
        (rangeMetrics L i 0).add (opContribution (instAt L (i + 0)).Op)
      rw [Nat.add_zero, hat]
      rfl
    · show inst.Start = (instAt L i).Start
      rw [hat]
    · show inst.Start + inst.Size =
        (instAt L ((i + 1) - 1)).Start + (instAt L ((i + 1) - 1)).Size
      simp [hat]
  · obtain ⟨h1, h2, h3, h4, h5, h6, h7⟩ := activeInv_of_IPInv hinv h0
    unfold stepCandidate
    rw [if_neg h0]
    refine ⟨show ip.StartInstruction < i + 1 by omega, rfl, by omega, ?_, ?_, ?_, ?_⟩
    · show (ip.Metrics.add (opContribution inst.Op)).AllOps =
        (i + 1) - ip.StartInstruction
      rw [Metrics.add_AllOps, opContribution_AllOps]
      omega
    · show ip.Metrics.add (opContribution inst.Op) =
        rangeMetrics L ip.StartInstruction ((i + 1) - ip.StartInstruction)
      have he : (i + 1) - ip.StartInstruction = (i - ip.StartInstruction) + 1 := by
        omega
      rw [he]
      show ip.Metrics.add (opContribution inst.Op) =
        (rangeMetrics L ip.StartInstruction (i - ip.StartInstruction)).add
          (opContribution (instAt L (ip.StartInstruction + (i - ip.StartInstruction))).Op)
      have hsum : ip.StartInstruction + (i - ip.StartInstruction) = i := by omega
      rw [hsum, hat, h5, h2]
    · show ip.Start = (instAt L ip.StartInstruction).Start
      exact h6
    · show inst.Start + inst.Size =
        (instAt L ((i + 1) - 1)).Start + (instAt L ((i + 1) - 1)).Size
      simp [hat]

/-- Master invariant of the scan loop: starting from a state satisfying the
loop invariants after `i` instructions, every candidate the loop eventually
returns is `Good`, and the returned list is ordered by instruction index. -/
theorem scanLoop_invariant (s : scanner) (tg : List Nat) (L : List InstructionMetadata) :
    ∀ (rest : List InstructionMetadata) (i : Nat)
      (finished : List CompilationCandidate) (ip : CompilationCandidate),
      rest = L.drop i → i ≤ L.length → IPInv L i ip →
      (∀ c ∈ finished, Good L c) →
      (∀ c ∈ finished, c.EndInstruction ≤ i) →
      (ip.Metrics.AllOps ≠ 0 → ∀ c ∈ finished, c.EndInstruction ≤ ip.StartInstruction) →
      ChainIdx finished →
      (∀ c ∈ scanLoop s tg rest i finished ip, Good L c) ∧
        ChainIdx (scanLoop s tg rest i finished ip) := by
  intro rest
  induction rest with
  | nil =>
    intro i finished ip _ _ hinv hgood _ hfi hch
    rw [scanLoop]
    constructor
    · intro c hc
      rcases mem_flushCandidate hc with h | ⟨rfl, hall⟩
      · exact hgood c h
      · exact good_of_activeInv (activeInv_of_IPInv hinv (by omega)) hall
    · exact chainIdx_flushCandidate hch (fun hall => hfi (by omega))
  | cons inst rest' ih =>
    intro i finished ip hdrop hi hinv hgood hfb hfi hch
    have hlen : i < L.length := by
      by_contra hcon
      push_neg at hcon
      rw [List.drop_eq_nil_of_le hcon] at hdrop
      exact List.cons_ne_nil _ _ hdrop
    have hcons : L.drop i = L[i] :: L.drop (i + 1) := List.drop_eq_getElem_cons hlen
    rw [← hdrop] at hcons
    have hinst : inst = L[i] := by injection hcons
    have hdrop' : rest' = L.drop (i + 1) := by injection hcons
    have hat : instAt L i = inst := by
      rw [instAt, List.getD_eq_getElem L _ hlen, hinst]
    rw [scanLoop]
    by_cases hd : disqualified s tg inst ip = true
    · rw [if_pos hd]
      refine ih (i + 1) _ _ hdrop' (by omega) (Or.inl rfl) ?_ ?_ ?_ ?_
      · intro c hc
        rcases mem_flushCandidate hc with h | ⟨rfl, hall⟩
        · exact hgood c h
        · exact good_of_activeInv (activeInv_of_IPInv hinv (by omega)) hall
      · intro c hc
        rcases mem_flushCandidate hc with h | ⟨rfl, hall⟩
        · exact le_trans (hfb c h) (by omega)
        · obtain ⟨-, h2, -⟩ := activeInv_of_IPInv hinv (by omega)
          omega
      · intro hpos
        exact absurd rfl hpos
      · exact chainIdx_flushCandidate hch (fun hall => hfi (by omega))
    · rw [if_neg hd]
      refine ih (i + 1) _ _ hdrop' (by omega)
        (Or.inr (stepCandidate_activeInv hlen hat hinv)) hgood
        (fun c hc => le_trans (hfb c hc) (by omega)) ?_ hch
      intro _ c hc
      rw [stepCandidate_StartInstruction]
      by_cases h0 : ip.Metrics.AllOps = 0
      · rw [if_pos h0]
        exact hfb c hc
      · rw [if_neg h0]
        exact hfi h0 c hc

/-- Soundness of `ScanFunc`: every returned candidate is `Good` for the
instruction list, and the returned candidates are ordered by instruction
index. -/
theorem scanFunc_sound (s : scanner) (b : List Nat) (meta : BytecodeMetadata) :
    (∀ c ∈ (s.ScanFunc b meta).1, Good meta.Instructions c) ∧
      ChainIdx (s.ScanFunc b meta).1 :=
  scanLoop_invariant s meta.InboundTargets meta.Instructions meta.Instructions 0 []
    CompilationCandidate.zero (List.drop_zero _).symm (Nat.zero_le _) (Or.inl rfl)
    (by intro c hc; cases hc) (by intro c hc; cases hc)
    (by intro _ c hc; cases hc) List.chain'_nil

theorem opContribution_silent (op : Nat) :
    (opContribution op).MemoryReads = 0 ∧ (opContribution op).MemoryWrites = 0 ∧
      (opContribution op).FloatOps = 0 := by
  unfold opContribution
  split_ifs <;> exact ⟨rfl, rfl, rfl⟩

theorem rangeMetrics_silent (L : List InstructionMetadata) (a : Nat) :
    ∀ n, (rangeMetrics L a n).MemoryReads = 0 ∧ (rangeMetrics L a n).MemoryWrites = 0 ∧
      (rangeMetrics L a n).FloatOps = 0 := by
  intro n
  induction n with
  | zero => exact ⟨rfl, rfl, rfl⟩
  | succ n ihn =>
    obtain ⟨h1, h2, h3⟩ := ihn
    obtain ⟨g1, g2, g3⟩ := opContribution_silent (instAt L (a + n)).Op
    refine ⟨?_, ?_, ?_⟩ <;>
      simp [rangeMetrics, Metrics.add, h1, h2, h3, g1, g2, g3]

/-- Reading pairwise byte-contiguity as an indexed bound: for `j < k`,
instruction `j` ends at or before instruction `k` starts. -/
theorem pairwise_nonoverlap_index {L : List InstructionMetadata}
    (h : List.Pairwise (fun a b => a.Start + a.Size ≤ b.Start) L) :
    ∀ j k, j < k → k < L.length →
      (instAt L j).Start + (instAt L j).Size ≤ (instAt L k).Start := by
  intro j k hjk hk
  have hj : j < L.length := lt_trans hjk hk
  have := List.pairwise_iff_getElem.mp h j k hj hk hjk
  rwa [instAt, instAt, List.getD_eq_getElem L _ hj, List.getD_eq_getElem L _ hk]

/-- Reading pairwise monotone start offsets as an indexed bound. -/
theorem pairwise_monotone_index {L : List InstructionMetadata}
    (h : List.Pairwise (fun a b => a.Start ≤ b.Start) L) :
    ∀ j k, j ≤ k → k < L.length → (instAt L j).Start ≤ (instAt L k).Start := by
  intro j k hjk hk
  rcases Nat.lt_or_ge j k with hlt | hge
  · have hj : j < L.length := lt_trans hlt hk
    have := List.pairwise_iff_getElem.mp h j k hj hk hlt
    rwa [instAt, instAt, List.getD_eq_getElem L _ hj, List.getD_eq_getElem L _ hk]
  · have : j = k := by omega
    rw [this]

/-- From index-ordered `Good` candidates over a byte-contiguous instruction
list with nonempty instructions, derive byte-level separation and strict
start ordering of consecutive candidates. -/
theorem chainByte_pair {L : List InstructionMetadata}
    (hwf : List.Pairwise (fun a b => a.Start + a.Size ≤ b.Start) L)
    (hsz : ∀ inst ∈ L, 1 ≤ inst.Size)
    {a b : CompilationCandidate} (hga : Good L a) (hgb : Good L b)
    (hidx : a.EndInstruction ≤ b.StartInstruction) :
    a.End ≤ b.Start ∧ a.Start < b.Start := by
  obtain ⟨ha1, ha2, -, -, -, ha6, ha7⟩ := hga
  obtain ⟨hb1, hb2, -, -, -, hb6, -⟩ := hgb
  -- instruction index layout: sa < ea ≤ sb < eb ≤ L.length
  have hsb : b.StartInstruction < L.length := lt_of_lt_of_le hb1 hb2
  constructor
  · -- byte end of a ≤ byte start of b
    rw [ha7, hb6]
    exact pairwise_nonoverlap_index hwf (a.EndInstruction - 1) b.StartInstruction
      (by omega) hsb
  · -- strictly ascending candidate start offsets
    rw [ha6, hb6]
    have hlt : a.StartInstruction < b.StartInstruction := by omega
    have hmem : instAt L a.StartInstruction ∈ L := by
      rw [instAt, List.getD_eq_getElem L _ (lt_trans hlt hsb)]
      exact List.getElem_mem _
    have := pairwise_nonoverlap_index hwf a.StartInstruction b.StartInstruction hlt hsb
    have := hsz _ hmem
    omega

theorem chainByte_of_chainIdx {L : List InstructionMetadata}
    (hwf : List.Pairwise (fun a b => a.Start + a.Size ≤ b.Start) L)
    (hsz : ∀ inst ∈ L, 1 ≤ inst.Size) :
    ∀ l, (∀ c ∈ l, Good L c) → ChainIdx l →
      List.Chain' (fun c1 c2 => c1.End ≤ c2.Start ∧ c1.Start < c2.Start) l := by
  intro l
  induction l with
  | nil => intro _ _ ; exact List.chain'_nil
  | cons a t ih =>
    intro hg hch
    cases t with
    | nil => exact List.chain'_singleton a
    | cons b t' =>
      unfold ChainIdx at hch
      rw [List.chain'_cons] at hch
      rw [List.chain'_cons]
      refine ⟨?_, ih (fun c hc => hg c (List.mem_cons_of_mem _ hc)) hch.2⟩
      exact chainByte_pair hwf hsz (hg a (List.mem_cons_self a _))
        (hg b (List.mem_cons_of_mem _ (List.mem_cons_self b _))) hch.1

/-- In the all-supported, no-inbound-target case, once a run is active the
loop accumulates every remaining instruction into the one candidate and
emits it exactly when it has more than 2 instructions. -/
theorem scanLoop_all_supported (s : scanner) (tg : List Nat) :
    ∀ (rest : List InstructionMetadata) (i : Nat) (ip : CompilationCandidate),
      (∀ inst ∈ rest, s.supportedOpcodes inst.Op = true) →
      (∀ inst ∈ rest, tg.contains inst.Start = false) →
      0 < i → ip.Metrics.AllOps = i → ip.StartInstruction = 0 →
      ip.EndInstruction = i →
      ∃ c, scanLoop s tg rest i [] ip =
          (if 2 < i + rest.length then [c] else []) ∧
        c.StartInstruction = 0 ∧ c.EndInstruction = i + rest.length := by
  intro rest
  induction rest with
  | nil =>
    intro i ip _ _ _ hall hsi hei
    refine ⟨ip, ?_, hsi, by simp only [List.length_nil] ; omega⟩
    rw [scanLoop]
    unfold flushCandidate
    rw [hall]
    simp only [List.length_nil, Nat.add_zero]
    split_ifs
    · exact List.nil_append [ip]
    · rfl
  | cons inst rest' ih =>
    intro i ip hsup htg hi hall hsi hei
    have hd : disqualified s tg inst ip = false := by
      unfold disqualified
      rw [hsup inst (by simp), htg inst (by simp)]
      rfl
    rw [scanLoop, if_neg (by rw [hd]; exact Bool.false_ne_true)]
    have hstep := stepCandidate_StartInstruction inst i ip
    rw [if_neg (by omega)] at hstep
    obtain ⟨c, hc1, hc2, hc3⟩ :=
      ih (i + 1) (stepCandidate inst i ip)
        (fun x hx => hsup x (List.mem_cons_of_mem _ hx))
        (fun x hx => htg x (List.mem_cons_of_mem _ hx))
        (by omega)
        (by
          show (stepCandidate inst i ip).Metrics.AllOps = i + 1
          unfold stepCandidate
          rw [if_neg (by omega)]
          show (ip.Metrics.add (opContribution inst.Op)).AllOps = i + 1
          rw [Metrics.add_AllOps, opContribution_AllOps, hall])
        (by rw [hstep, hsi])
        rfl
    refine ⟨c, ?_, hc2, by simp only [List.length_cons] ; omega⟩
    rw [hc1]
    have heq : i + 1 + rest'.length = i + (rest'.length + 1) := by omega
    simp only [List.length_cons, heq]

theorem stepCandidate_AllOps (inst : InstructionMetadata) (i : Nat)
    (ip : CompilationCandidate) :
    (stepCandidate inst i ip).Metrics.AllOps = ip.Metrics.AllOps + 1 := by
  unfold stepCandidate
  split_ifs <;>
    (show ((_ : CompilationCandidate).Metrics.add (opContribution inst.Op)).AllOps = _
     rw [Metrics.add_AllOps, opContribution_AllOps])

theorem stepCandidate_EndInstruction (inst : InstructionMetadata) (i : Nat)
    (ip : CompilationCandidate) :
    (stepCandidate inst i ip).EndInstruction = i + 1 := rfl

theorem disqualified_false_of_no_target (s : scanner) (tg : List Nat)
    (inst : InstructionMetadata) (ip : CompilationCandidate)
    (h1 : s.supportedOpcodes inst.Op = true) (h2 : tg.contains inst.Start = false) :
    disqualified s tg inst ip = false := by
  unfold disqualified
  rw [h1, h2]
  rfl

theorem disqualified_false_of_inactive {s : scanner} {tg : List Nat}
    {inst : InstructionMetadata} {ip : CompilationCandidate}
    (h1 : s.supportedOpcodes inst.Op = true) (h0 : ip.Metrics.AllOps = 0) :
    disqualified s tg inst ip = false := by
  unfold disqualified
  rw [h1, h0]
  simp

theorem disqualified_true_of_target {s : scanner} {tg : List Nat}
    {inst : InstructionMetadata} {ip : CompilationCandidate}
    (h2 : tg.contains inst.Start = true) (h3 : 0 < inst.Start)
    (h4 : 0 < ip.Metrics.AllOps) :
    disqualified s tg inst ip = true := by
  unfold disqualified
  rw [h2, decide_eq_true h3, decide_eq_true h4]
  simp

theorem flushCandidate_of_le {finished : List CompilationCandidate}
    {ip : CompilationCandidate} (h : ip.Metrics.AllOps ≤ 2) :
    flushCandidate finished ip = finished := by
  unfold flushCandidate
  rw [if_neg (by omega)]




theorem bool_ne_true {b : Bool} (h : b = false) : ¬ b = true := by
  rw [h]
  exact Bool.false_ne_true

theorem disqualified_true_of_unsupported {s : scanner} {tg : List Nat}
    {inst : InstructionMetadata} {ip : CompilationCandidate}
    (h : s.supportedOpcodes inst.Op = false) :
    disqualified s tg inst ip = true := by
  unfold disqualified
  rw [h]
  rfl

theorem flushCandidate_of_gt {finished : List CompilationCandidate}
    {ip : CompilationCandidate} (h : 2 < ip.Metrics.AllOps) :
    flushCandidate finished ip = finished ++ [ip] := by
  unfold flushCandidate
  rw [if_pos h]


/-! Claim theorems. -/

/-- C2: `jitcall`, given the frame arguments (codeAddress, stackBase,
localsBase), loads the machine instruction address stored at `codeAddress`
(one level of pointer indirection) and transfers control to it by an
indirect jump, passing `stackBase` and `localsBase` through unchanged in the
fixed registers R10 and R11; it performs no other computation (memory, the
stack pointer and the frame pointer are untouched — in particular no return
address is pushed, so it is a tail jump rather than a call) and contains no
call instruction. -/
theorem jitcall_tail_jump (st : jit.MachineState) :
    (jit.run jit.jitcall st).pc =
        st.mem (st.mem ((st.fp + 0) % jit.wordMod) % jit.wordMod) ∧
    (jit.run jit.jitcall st).ax =
        st.mem (st.mem ((st.fp + 0) % jit.wordMod) % jit.wordMod) ∧
    (jit.run jit.jitcall st).r10 = st.mem ((st.fp + 8) % jit.wordMod) ∧
    (jit.run jit.jitcall st).r11 = st.mem ((st.fp + 16) % jit.wordMod) ∧
    (jit.run jit.jitcall st).mem = st.mem ∧
    (jit.run jit.jitcall st).sp = st.sp ∧
    (jit.run jit.jitcall st).fp = st.fp ∧
    (∀ r, jit.Instr.callReg r ∉ jit.jitcall) :=
  ⟨rfl, rfl, rfl, rfl, rfl, rfl, rfl, by intro r ; cases r <;> decide⟩

/-- C9: the result of `ScanFunc` does not depend on the bytecode byte-slice
argument — only the instruction metadata and inbound-target set matter. -/
theorem scanFunc_ignores_bytecode (s : scanner) (b1 b2 : List Nat)
    (meta : BytecodeMetadata) :
    s.ScanFunc b1 meta = s.ScanFunc b2 meta := rfl

/-- C8: `ScanFunc` always returns a nil error, and an empty instruction list
yields an empty candidate sequence. -/
theorem scanFunc_no_error (s : scanner) (b : List Nat) (meta : BytecodeMetadata) :
    (s.ScanFunc b meta).2 = none ∧
      (meta.Instructions = [] → (s.ScanFunc b meta).1 = []) := by
  refine ⟨rfl, fun h => ?_⟩
  show scanLoop s meta.InboundTargets meta.Instructions 0 [] CompilationCandidate.zero = []
  rw [h, scanLoop]
  rfl

/-- Witness for C8 at a concrete empty function. -/
theorem scanFunc_no_error_witness :
    metaEmpty.Instructions = [] ∧ (scanConst.ScanFunc [] metaEmpty).2 = none ∧
      (scanConst.ScanFunc [] metaEmpty).1 = [] :=
  ⟨rfl, (scanFunc_no_error scanConst [] metaEmpty).1,
    (scanFunc_no_error scanConst [] metaEmpty).2 rfl⟩

/-- C4: the `Metrics` of every candidate returned by `ScanFunc` equal the sum,
over the instructions with index in `[StartInstruction, EndInstruction)`, of
the fixed per-opcode contribution `opContribution` (the code's classification
table: `I64Const`/`GetLocal` → one integer op and one stack write; `SetLocal`
→ one integer op and one stack read; `I64Eqz` → one integer op, one stack
read, one stack write; the binary integer opcodes → one integer op, two stack
reads, one stack write; every included instruction adds 1 to `AllOps` and
unlisted opcodes contribute nothing else). -/
theorem scanFunc_metrics_sum (s : scanner) (b : List Nat) (meta : BytecodeMetadata)
    (c : CompilationCandidate) (hc : c ∈ (s.ScanFunc b meta).1) :
    c.Metrics = rangeMetrics meta.Instructions c.StartInstruction
      (c.EndInstruction - c.StartInstruction) :=
  ((scanFunc_sound s b meta).1 c hc).2.2.2.2.1

/-- Witness for C4 at the mixed scenario's first candidate. -/
theorem scanFunc_metrics_sum_witness :
    cand7a ∈ (scanBasic.ScanFunc [] metaMix7).1 ∧
      cand7a.Metrics = rangeMetrics metaMix7.Instructions cand7a.StartInstruction
        (cand7a.EndInstruction - cand7a.StartInstruction) :=
  ⟨by decide, scanFunc_metrics_sum scanBasic [] metaMix7 cand7a (by decide)⟩

/-- C10: in every candidate returned by `ScanFunc`, the metrics fields
`MemoryReads`, `MemoryWrites` and `FloatOps` are zero — no opcode in the
classification table increments them. -/
theorem scanFunc_no_memory_no_float (s : scanner) (b : List Nat)
    (meta : BytecodeMetadata) (c : CompilationCandidate)
    (hc : c ∈ (s.ScanFunc b meta).1) :
    c.Metrics.MemoryReads = 0 ∧ c.Metrics.MemoryWrites = 0 ∧
      c.Metrics.FloatOps = 0 := by
  have hm := ((scanFunc_sound s b meta).1 c hc).2.2.2.2.1
  rw [hm]
  exact rangeMetrics_silent meta.Instructions c.StartInstruction _

/-- Witness for C10 at the mixed scenario's second candidate. -/
theorem scanFunc_no_memory_no_float_witness :
    cand7b ∈ (scanBasic.ScanFunc [] metaMix7).1 ∧
      cand7b.Metrics.MemoryReads = 0 ∧ cand7b.Metrics.MemoryWrites = 0 ∧
        cand7b.Metrics.FloatOps = 0 :=
  ⟨by decide, scanFunc_no_memory_no_float scanBasic [] metaMix7 cand7b (by decide)⟩



/-- Counterexample to C6 as stated: with decreasing start offsets (an input
`ScanFunc` accepts without complaint), the returned candidate has
`Start = 100 > End = 1`, so `Start ≤ End` does not hold unconditionally. -/
theorem scanFunc_bounds_counterexample :
    ¬ ∀ c ∈ (scanConst.ScanFunc [] metaNonMono).1, c.Start ≤ c.End := by
  decide

/-- C6 amended: every candidate returned by `ScanFunc` satisfies
`StartInstruction < EndInstruction` and
`EndInstruction − StartInstruction ≥ 3` unconditionally, and `Start ≤ End`
provided the instruction start offsets are monotonically non-decreasing. -/
theorem scanFunc_bounds_amended (s : scanner) (b : List Nat)
    (meta : BytecodeMetadata) :
    (∀ c ∈ (s.ScanFunc b meta).1,
      c.StartInstruction < c.EndInstruction ∧
        3 ≤ c.EndInstruction - c.StartInstruction) ∧
    (List.Pairwise (fun x y => x.Start ≤ y.Start) meta.Instructions →
      ∀ c ∈ (s.ScanFunc b meta).1, c.Start ≤ c.End) := by
  constructor
  · intro c hc
    obtain ⟨h1, -, h3, h4, -⟩ := (scanFunc_sound s b meta).1 c hc
    exact ⟨h1, by omega⟩
  · intro hmono c hc
    obtain ⟨h1, h2, -, -, -, h6, h7⟩ := (scanFunc_sound s b meta).1 c hc
    rw [h6, h7]
    have hle := pairwise_monotone_index hmono c.StartInstruction
      (c.EndInstruction - 1) (by omega) (by omega)
    omega

/-- Witness for C6 amended at a concrete monotone 3-instruction run. -/
theorem scanFunc_bounds_amended_witness :
    List.Pairwise (fun x y => x.Start ≤ y.Start) metaRun3.Instructions ∧
      candRun3 ∈ (scanConst.ScanFunc [] metaRun3).1 ∧
      candRun3.StartInstruction < candRun3.EndInstruction ∧
      3 ≤ candRun3.EndInstruction - candRun3.StartInstruction ∧
      candRun3.Start ≤ candRun3.End :=
  ⟨by decide, by decide,
    ((scanFunc_bounds_amended scanConst [] metaRun3).1 candRun3 (by decide)).1,
    ((scanFunc_bounds_amended scanConst [] metaRun3).1 candRun3 (by decide)).2,
    (scanFunc_bounds_amended scanConst [] metaRun3).2 (by decide) candRun3 (by decide)⟩

/-- Counterexample to C5 as stated: `metaOverlap` has monotonically
non-decreasing start offsets (0,1,2,2,2,3,4), yet the two returned
candidates have `End = 12` for the first and `Start = 2` for the second, so
consecutive candidates do not satisfy `End ≤ Start` under monotonicity
alone (the instruction byte ranges overlap). -/
theorem scanFunc_order_counterexample :
    List.Pairwise (fun x y => x.Start ≤ y.Start) metaOverlap.Instructions ∧
      ¬ List.Chain' (fun c1 c2 => c1.End ≤ c2.Start)
        (scanConst.ScanFunc [] metaOverlap).1 := by
  constructor
  · decide
  · intro h
    have hres : (scanConst.ScanFunc [] metaOverlap).1 =
        [⟨0, 12, 0, 3, ⟨0, 0, 0, 3, 3, 3, 0⟩⟩,
         ⟨2, 5, 4, 7, ⟨0, 0, 0, 3, 3, 3, 0⟩⟩] := by decide
    rw [hres, List.chain'_cons] at h
    exact absurd h.1 (by decide)

/-- C5 amended: for inputs whose instructions are sequentially
non-overlapping (each instruction's start offset plus its size is at most
the next instruction's start offset) with every instruction at least one
byte long, the candidates returned by `ScanFunc` are non-overlapping and
strictly ordered by ascending start offset: any two consecutive candidates
satisfy `End₁ ≤ Start₂` and `Start₁ < Start₂`. -/
theorem scanFunc_order_amended (s : scanner) (b : List Nat)
    (meta : BytecodeMetadata)
    (hwf : List.Pairwise (fun x y => x.Start + x.Size ≤ y.Start) meta.Instructions)
    (hsz : ∀ inst ∈ meta.Instructions, 1 ≤ inst.Size) :
    List.Chain' (fun c1 c2 => c1.End ≤ c2.Start ∧ c1.Start < c2.Start)
      (s.ScanFunc b meta).1 :=
  chainByte_of_chainIdx hwf hsz _ (scanFunc_sound s b meta).1
    (scanFunc_sound s b meta).2

/-- Witness for C5 amended at the mixed scenario (two candidates). -/
theorem scanFunc_order_amended_witness :
    List.Pairwise (fun x y => x.Start + x.Size ≤ y.Start) metaMix7.Instructions ∧
      (∀ inst ∈ metaMix7.Instructions, 1 ≤ inst.Size) ∧
      List.Chain' (fun c1 c2 => c1.End ≤ c2.Start ∧ c1.Start < c2.Start)
        (scanBasic.ScanFunc [] metaMix7).1 :=
  ⟨by decide, by decide,
    scanFunc_order_amended scanBasic [] metaMix7 (by decide) (by decide)⟩



/-- C7: for the instruction stream `[Const, Const, Add, Call, Const, Const,
Sub]` (arbitrary byte offsets and sizes) with `I64Const`/`I64Add`/`I64Sub`
supported, `Call` unsupported and an empty inbound-target set, `ScanFunc`
returns exactly two candidates: instructions 0..2 and instructions 4..6
(exclusive end indices 3 and 7), each with `AllOps = 3` and
`IntegerOps = 3`; instruction 3 belongs to neither. -/
theorem scanFunc_mixed_scenario (s : scanner) (bc : List Nat)
    (p0 p1 p2 p3 p4 p5 p6 z0 z1 z2 z3 z4 z5 z6 : Nat)
    (hC : s.supportedOpcodes ops.I64Const = true)
    (hA : s.supportedOpcodes ops.I64Add = true)
    (hS : s.supportedOpcodes ops.I64Sub = true)
    (hCall : s.supportedOpcodes ops.Call = false) :
    (s.ScanFunc bc
        ⟨[⟨ops.I64Const, p0, z0⟩, ⟨ops.I64Const, p1, z1⟩, ⟨ops.I64Add, p2, z2⟩,
          ⟨ops.Call, p3, z3⟩, ⟨ops.I64Const, p4, z4⟩, ⟨ops.I64Const, p5, z5⟩,
          ⟨ops.I64Sub, p6, z6⟩], []⟩).1 =
      [⟨p0, p2 + z2, 0, 3, ⟨0, 0, 2, 3, 3, 3, 0⟩⟩,
       ⟨p4, p6 + z6, 4, 7, ⟨0, 0, 2, 3, 3, 3, 0⟩⟩] := by
  show scanLoop s []
    [⟨ops.I64Const, p0, z0⟩, ⟨ops.I64Const, p1, z1⟩, ⟨ops.I64Add, p2, z2⟩,
     ⟨ops.Call, p3, z3⟩, ⟨ops.I64Const, p4, z4⟩, ⟨ops.I64Const, p5, z5⟩,
     ⟨ops.I64Sub, p6, z6⟩] 0 [] CompilationCandidate.zero = _
  rw [scanLoop, if_neg (bool_ne_true (disqualified_false_of_no_target s [] ⟨ops.I64Const, _, _⟩ _ hC rfl))]
  rw [scanLoop, if_neg (bool_ne_true (disqualified_false_of_no_target s [] ⟨ops.I64Const, _, _⟩ _ hC rfl))]
  rw [scanLoop, if_neg (bool_ne_true (disqualified_false_of_no_target s [] ⟨ops.I64Add, _, _⟩ _ hA rfl))]
  rw [scanLoop, if_pos (disqualified_true_of_unsupported hCall)]
  rw [flushCandidate_of_gt
    (by rw [stepCandidate_AllOps, stepCandidate_AllOps, stepCandidate_AllOps] ; decide)]
  rw [scanLoop, if_neg (bool_ne_true (disqualified_false_of_no_target s [] ⟨ops.I64Const, _, _⟩ _ hC rfl))]
  rw [scanLoop, if_neg (bool_ne_true (disqualified_false_of_no_target s [] ⟨ops.I64Const, _, _⟩ _ hC rfl))]
  rw [scanLoop, if_neg (bool_ne_true (disqualified_false_of_no_target s [] ⟨ops.I64Sub, _, _⟩ _ hS rfl))]
  rw [scanLoop]
  rw [flushCandidate_of_gt
    (by rw [stepCandidate_AllOps, stepCandidate_AllOps, stepCandidate_AllOps] ; decide)]
  rfl

/-- Witness for C7 at the contiguous concrete stream `metaMix7`. -/
theorem scanFunc_mixed_scenario_witness :
    scanBasic.supportedOpcodes ops.I64Const = true ∧
      scanBasic.supportedOpcodes ops.Call = false ∧
      (scanBasic.ScanFunc [] metaMix7).1 = [cand7a, cand7b] :=
  ⟨rfl, rfl,
    scanFunc_mixed_scenario scanBasic [] 0 1 2 3 4 5 6 1 1 1 1 1 1 1
      rfl rfl rfl rfl⟩



/-- C3: if every opcode is supported and no instruction past the first has
its start offset in the inbound-target set, `ScanFunc` returns exactly one
candidate spanning the whole function when there are more than 2
instructions, and an empty sequence otherwise. -/
theorem scanFunc_whole_function (s : scanner) (b : List Nat)
    (meta : BytecodeMetadata)
    (hsup : ∀ inst ∈ meta.Instructions, s.supportedOpcodes inst.Op = true)
    (htg : ∀ inst ∈ meta.Instructions.tail,
      meta.InboundTargets.contains inst.Start = false) :
    (2 < meta.Instructions.length →
      ∃ c, (s.ScanFunc b meta).1 = [c] ∧ c.StartInstruction = 0 ∧
        c.EndInstruction = meta.Instructions.length) ∧
    (meta.Instructions.length ≤ 2 → (s.ScanFunc b meta).1 = []) := by
  cases hL : meta.Instructions with
  | nil =>
    constructor
    · intro h
      simp at h
    · intro _
      show scanLoop s meta.InboundTargets meta.Instructions 0 []
        CompilationCandidate.zero = []
      rw [hL, scanLoop]
      rfl
  | cons inst0 restL =>
    have hsup' : ∀ inst ∈ inst0 :: restL, s.supportedOpcodes inst.Op = true :=
      hL ▸ hsup
    have htg' : ∀ inst ∈ restL, meta.InboundTargets.contains inst.Start = false := by
      rw [hL] at htg
      exact htg
    have h0 : disqualified s meta.InboundTargets inst0 CompilationCandidate.zero
        = false :=
      disqualified_false_of_inactive (hsup' inst0 (List.mem_cons_self _ _)) rfl
    obtain ⟨c, hc1, hc2, hc3⟩ := scanLoop_all_supported s meta.InboundTargets restL 1
      (stepCandidate inst0 0 CompilationCandidate.zero)
      (fun x hx => hsup' x (List.mem_cons_of_mem _ hx)) htg'
      (by omega)
      (by rw [stepCandidate_AllOps] ; decide)
      (by rw [stepCandidate_StartInstruction] ; exact if_pos rfl)
      rfl
    have hmain : (s.ScanFunc b meta).1 =
        if 2 < 1 + restL.length then [c] else [] := by
      show scanLoop s meta.InboundTargets meta.Instructions 0 []
        CompilationCandidate.zero = _
      rw [hL, scanLoop, if_neg (bool_ne_true h0)]
      exact hc1
    simp only [List.length_cons]
    constructor
    · intro hlen
      refine ⟨c, ?_, hc2, ?_⟩
      · rw [hmain, if_pos (by omega)]
      · omega
    · intro hlen
      rw [hmain, if_neg (by omega)]

/-- Witness for C3 at a concrete all-supported 3-instruction function. -/
theorem scanFunc_whole_function_witness :
    (∀ inst ∈ metaRun3.Instructions, scanConst.supportedOpcodes inst.Op = true) ∧
      (∀ inst ∈ metaRun3.Instructions.tail,
        metaRun3.InboundTargets.contains inst.Start = false) ∧
      (2 < metaRun3.Instructions.length →
        ∃ c, (scanConst.ScanFunc [] metaRun3).1 = [c] ∧ c.StartInstruction = 0 ∧
          c.EndInstruction = metaRun3.Instructions.length) :=
  ⟨by decide, by decide,
    (scanFunc_whole_function scanConst [] metaRun3 (by decide) (by decide)).1⟩

/-- Counterexample to C1 as stated: on the concrete 5-instruction
all-supported stream with the 3rd instruction's offset (2) the only inbound
target, `ScanFunc` returns the empty sequence — not one candidate covering
instructions 2..4.  The branch-target instruction is skipped by the loop's
`continue`, so no new candidate begins at it. -/
theorem scanFunc_inbound_mid_run_counterexample :
    (scanConst.ScanFunc [] metaBranch5).1 = [] ∧
      (scanConst.ScanFunc [] metaBranch5).1.length ≠ 1 := by
  decide

/-- C1 amended: for every 5-instruction all-supported run in which only the
3rd instruction's (non-zero) start offset is an inbound branch target,
`ScanFunc` terminates the in-progress candidate at the instruction
immediately preceding the target (discarding it, as it has only 2
instructions); the target instruction itself is excluded from any candidate
rather than beginning a new one, so the remaining run holds only
instructions 3..4 and the result is empty. -/
theorem scanFunc_inbound_mid_run (s : scanner) (bc : List Nat) (tg : List Nat)
    (a1 a2 a3 a4 a5 : InstructionMetadata)
    (hs1 : s.supportedOpcodes a1.Op = true)
    (hs2 : s.supportedOpcodes a2.Op = true)
    (hs3 : s.supportedOpcodes a3.Op = true)
    (hs4 : s.supportedOpcodes a4.Op = true)
    (hs5 : s.supportedOpcodes a5.Op = true)
    (ht1 : tg.contains a1.Start = false)
    (ht2 : tg.contains a2.Start = false)
    (ht3 : tg.contains a3.Start = true)
    (ht4 : tg.contains a4.Start = false)
    (ht5 : tg.contains a5.Start = false)
    (hpos : 0 < a3.Start) :
    (s.ScanFunc bc ⟨[a1, a2, a3, a4, a5], tg⟩).1 = [] := by
  show scanLoop s tg [a1, a2, a3, a4, a5] 0 [] CompilationCandidate.zero = []
  rw [scanLoop, if_neg (bool_ne_true (disqualified_false_of_inactive hs1 rfl))]
  rw [scanLoop, if_neg (bool_ne_true
    (disqualified_false_of_no_target s tg a2 _ hs2 ht2))]
  rw [scanLoop, if_pos (disqualified_true_of_target ht3 hpos
    (by rw [stepCandidate_AllOps, stepCandidate_AllOps] ; decide))]
  rw [flushCandidate_of_le
    (by rw [stepCandidate_AllOps, stepCandidate_AllOps] ; decide)]
  rw [scanLoop, if_neg (bool_ne_true (disqualified_false_of_inactive hs4 rfl))]
  rw [scanLoop, if_neg (bool_ne_true
    (disqualified_false_of_no_target s tg a5 _ hs5 ht5))]
  rw [scanLoop]
  rw [flushCandidate_of_le
    (by rw [stepCandidate_AllOps, stepCandidate_AllOps] ; decide)]

/-- Witness for C1 amended at the concrete stream of `metaBranch5`. -/
theorem scanFunc_inbound_mid_run_witness :
    (([2] : List Nat).contains 2 = true) ∧ (0 < (2 : Nat)) ∧
      (scanConst.ScanFunc []
        ⟨[⟨ops.I64Const, 0, 1⟩, ⟨ops.I64Const, 1, 1⟩, ⟨ops.I64Const, 2, 1⟩,
          ⟨ops.I64Const, 3, 1⟩, ⟨ops.I64Const, 4, 1⟩], [2]⟩).1 = [] :=
  ⟨rfl, by decide,
    scanFunc_inbound_mid_run scanConst [] [2] _ _ _ _ _
      rfl rfl rfl rfl rfl rfl rfl rfl rfl rfl (by decide)⟩


end Wagon
